import Mathlib

/-!
Shallow embedding of the struct-layout machinery and node dispatch of the
capnp schema compiler's node translator (c++/src/capnp/compiler/node-translator.c++),
together with theorems settling the specification's claims about it.

A HoleSet (`NodeTranslator::StructLayout::HoleSet`) is an array of six entries,
one per power-of-two size class 2^0 .. 2^5 bits; entry `i` is the offset of the
(unique) hole of that size in units of its own size, with `0` meaning "no hole".
We model the array as a `List Nat` of length 6, read with `getD _ 0` and written
with `set`.  The C++ recursions ascend `lgSize` toward the array size (6) or
count `expansionFactor` down to zero; we implement each with structural
recursion on the corresponding measure (`6 - lgSize`, `limitLgSize - lgSize`,
`expansionFactor`) so the definitions compute by `decide`/`rfl`.
-/

namespace Capnp

/-- Body of `HoleSet::tryAllocate`, recursing on `fuel = 6 - lgSize`.
`fuel = 0` is exactly the C++ guard `lgSize >= KJ_ARRAY_SIZE(holes)` (return
nullptr).  Otherwise: if `holes[lgSize] != 0`, remove and return that hole;
else try one size up, and on success return twice the larger offset and
re-record the unused half at `lgSize` at that result plus one. -/
def tryAllocateAux (holes : List Nat) : Nat → Nat → Option (Nat × List Nat)
  | 0, _ => none
  | fuel + 1, lgSize =>
    if holes.getD lgSize 0 ≠ 0 then
      some (holes.getD lgSize 0, holes.set lgSize 0)
    else
      match tryAllocateAux holes fuel (lgSize + 1) with
      | some p => some (p.1 * 2, p.2.set lgSize (p.1 * 2 + 1))
      | none => none

/-- `HoleSet::tryAllocate(lgSize)` (node-translator.c++ lines 73-93). -/
def tryAllocate (holes : List Nat) (lgSize : Nat) : Option (Nat × List Nat) :=
  tryAllocateAux holes (6 - lgSize) lgSize

/-- The hole-set state after a `tryAllocate` call (the C++ method mutates
`holes` in place; a failed call leaves the set unchanged). -/
def tryAllocateState (holes : List Nat) (lgSize : Nat) : List Nat :=
  match tryAllocate holes lgSize with
  | some p => p.2
  | none => holes

/-- Loop body of `HoleSet::addHolesAtEnd`, recursing on
`fuel = limitLgSize - lgSize` (the C++ loop runs while `lgSize < limitLgSize`,
writing `holes[lgSize] = offset` and stepping `offset = (offset + 1) / 2`). -/
def addHolesAtEndAux : Nat → List Nat → Nat → Nat → List Nat
  | 0, holes, _, _ => holes
  | fuel + 1, holes, lgSize, offset =>
    addHolesAtEndAux fuel (holes.set lgSize offset) (lgSize + 1) ((offset + 1) / 2)

/-- `HoleSet::addHolesAtEnd(lgSize, offset, limitLgSize)`
(node-translator.c++ lines 102-117). -/
def addHolesAtEnd (holes : List Nat) (lgSize offset limitLgSize : Nat) : List Nat :=
  addHolesAtEndAux (limitLgSize - lgSize) holes lgSize offset

/-- The debug preconditions (`KJ_DREQUIRE`s) checked by each iteration of
`addHolesAtEnd`: the target slot is free and the offset is odd. -/
def addHolesAtEndOkAux : Nat → List Nat → Nat → Nat → Bool
  | 0, _, _, _ => true
  | fuel + 1, holes, lgSize, offset =>
    holes.getD lgSize 0 == 0 && offset % 2 == 1 &&
      addHolesAtEndOkAux fuel (holes.set lgSize offset) (lgSize + 1) ((offset + 1) / 2)

/-- Contract of a call `addHolesAtEnd(lgSize, offset, limitLgSize)`: every
iteration's `KJ_DREQUIRE`s hold. -/
def addHolesAtEndOk (holes : List Nat) (lgSize offset limitLgSize : Nat) : Bool :=
  addHolesAtEndOkAux (limitLgSize - lgSize) holes lgSize offset

/-- `HoleSet::tryExpand(oldLgSize, oldOffset, expansionFactor)`
(node-translator.c++ lines 119-142).  Returns the C++ boolean result paired
with the resulting hole set.  The C++ recursion mutates nothing before the
recursive call and zeroes `holes[oldLgSize]` only when the recursion succeeds,
which the state threading below reproduces exactly. -/
def tryExpand (holes : List Nat) (oldLgSize oldOffset expansionFactor : Nat) :
    Bool × List Nat :=
  match expansionFactor with
  | 0 => (true, holes)
  | ef + 1 =>
    if holes.getD oldLgSize 0 ≠ oldOffset + 1 then
      (false, holes)
    else
      match tryExpand holes (oldLgSize + 1) (oldOffset / 2) ef with
      | (true, holes1) => (true, holes1.set oldLgSize 0)
      | (false, holes1) => (false, holes1)

/-- Loop of `HoleSet::getFirstWordUsed`: for `i` from 6 down to 1, return `i`
as soon as `holes[i-1] != 1`; otherwise return 0. -/
def getFirstWordUsedGo (holes : List Nat) : Nat → Nat
  | 0 => 0
  | i + 1 => if holes.getD i 0 ≠ 1 then i + 1 else getFirstWordUsedGo holes i

/-- `HoleSet::getFirstWordUsed` (node-translator.c++ lines 155-167). -/
def getFirstWordUsed (holes : List Nat) : Nat :=
  getFirstWordUsedGo holes 6

/-- The states of a `HoleSet` reachable from the empty set (all six entries
zero) by any sequence of `tryAllocate`, `addHolesAtEnd` and `tryExpand` calls.
`addHolesAtEnd` steps carry the function's documented contract: the
`KJ_DREQUIRE(limitLgSize <= KJ_ARRAY_SIZE(holes))` at entry and the
per-iteration `KJ_DREQUIRE`s captured by `addHolesAtEndOk`. -/
inductive HoleSetReachable : List Nat → Prop where
  | init : HoleSetReachable (List.replicate 6 0)
  | alloc (holes : List Nat) (lgSize : Nat) :
      HoleSetReachable holes → HoleSetReachable (tryAllocateState holes lgSize)
  | addHoles (holes : List Nat) (lgSize offset limitLgSize : Nat) :
      HoleSetReachable holes →
      limitLgSize ≤ 6 →
      addHolesAtEndOk holes lgSize offset limitLgSize = true →
      HoleSetReachable (addHolesAtEnd holes lgSize offset limitLgSize)
  | expand (holes : List Nat) (oldLgSize oldOffset expansionFactor : Nat) :
      HoleSetReachable holes →
      HoleSetReachable (tryExpand holes oldLgSize oldOffset expansionFactor).2

/-- `NodeTranslator::StructLayout::Top` (node-translator.c++ lines 182-211):
the struct's root segment, with its data-word count, pointer count and hole
set. -/
structure Top where
  dataWordCount : Nat
  pointerCount : Nat
  holes : List Nat
  deriving DecidableEq

/-- The freshly-constructed `Top` (both counters zero, no holes). -/
def Top.initial : Top :=
  { dataWordCount := 0, pointerCount := 0, holes := List.replicate 6 0 }

/-- `Top::addData(lgSize)`: try the hole set first; on failure extend the data
section by one word (the new field is placed at the start of that word, i.e.
at offset `dataWordCount << (6 - lgSize)` computed before the increment) and
record holes over the remainder of the word. -/
def Top.addData (t : Top) (lgSize : Nat) : Nat × Top :=
  match tryAllocate t.holes lgSize with
  | some p => (p.1, { t with holes := p.2 })
  | none =>
    let offset := t.dataWordCount <<< (6 - lgSize)
    (offset,
      { t with
        dataWordCount := t.dataWordCount + 1,
        holes := addHolesAtEnd t.holes lgSize (offset + 1) 6 })

/-- `Top::addPointer()`: return and post-increment the pointer count. -/
def Top.addPointer (t : Top) : Nat × Top :=
  (t.pointerCount, { t with pointerCount := t.pointerCount + 1 })

/-- `Top::tryExpandData`: delegate to the hole set's `tryExpand`. -/
def Top.tryExpandData (t : Top) (oldLgSize oldOffset expansionFactor : Nat) :
    Bool × Top :=
  let r := tryExpand t.holes oldLgSize oldOffset expansionFactor
  (r.1, { t with holes := r.2 })

/-- `Union::DataLocation` (node-translator.c++ lines 214-229): a slot owned by
a union, addressed by size class and offset in units of that size. -/
structure DataLocation where
  lgSize : Nat
  offset : Nat
  deriving DecidableEq

/-- `Union::DataLocation::tryExpandTo(u, newLgSize)`.  The union's parent
scope is abstracted by `parentExpand`, the Boolean result of its
`tryExpandData`; the parent's own state is outside this model (the theorems
below never depend on it).  On success past the current size, the offset is
scaled down and the size updated. -/
def DataLocation.tryExpandTo (parentExpand : Nat → Nat → Nat → Bool)
    (loc : DataLocation) (newLgSize : Nat) : Option DataLocation :=
  if newLgSize ≤ loc.lgSize then
    some loc
  else if parentExpand loc.lgSize loc.offset (newLgSize - loc.lgSize) then
    some { lgSize := newLgSize, offset := loc.offset >>> (newLgSize - loc.lgSize) }
  else
    none

/-- `Group::DataLocationUsage` (node-translator.c++ lines 272-417): how much
of one union data location a group has consumed.  `lgSizeUsed` is meaningful
only when `isUsed`; `holes` is a `HoleSet<uint8_t>` local to the location. -/
structure DataLocationUsage where
  isUsed : Bool
  lgSizeUsed : Nat
  holes : List Nat
  deriving DecidableEq

/-- `DataLocationUsage::tryExpandUsage(group, location, desiredUsage)`
(node-translator.c++ lines 404-416): grow the underlying slot if needed, then
record holes over the span between the old and the new usage and update
`lgSizeUsed`.  Returns the updated location and usage on success. -/
def tryExpandUsage (parentExpand : Nat → Nat → Nat → Bool) (loc : DataLocation)
    (u : DataLocationUsage) (desiredUsage : Nat) :
    Option (DataLocation × DataLocationUsage) :=
  if desiredUsage > loc.lgSize then
    match loc.tryExpandTo parentExpand desiredUsage with
    | none => none
    | some loc1 =>
      some (loc1,
        { u with
          holes := addHolesAtEnd u.holes u.lgSizeUsed 1 desiredUsage,
          lgSizeUsed := desiredUsage })
  else
    some (loc,
      { u with
        holes := addHolesAtEnd u.holes u.lgSizeUsed 1 desiredUsage,
        lgSizeUsed := desiredUsage })

/-- `DataLocationUsage::tryExpand(group, location, oldLgSize, oldOffset,
expansionFactor)` (node-translator.c++ lines 377-389): if the location holds
exactly the requested region, expand the whole usage; otherwise combine the
region with local holes only. -/
def usageTryExpand (parentExpand : Nat → Nat → Nat → Bool) (loc : DataLocation)
    (u : DataLocationUsage) (oldLgSize oldOffset expansionFactor : Nat) :
    Bool × DataLocation × DataLocationUsage :=
  if oldOffset = 0 ∧ u.lgSizeUsed = oldLgSize then
    match tryExpandUsage parentExpand loc u (oldLgSize + expansionFactor) with
    | some r => (true, r.1, r.2)
    | none => (false, loc, u)
  else
    let r := tryExpand u.holes oldLgSize oldOffset expansionFactor
    (r.1, loc, { u with holes := r.2 })

/-- The sweep in `Group::tryExpandData` (node-translator.c++ lines 499-512):
walk the usage vector looking for the data location whose envelope contains
the region; on a match translate the offset to a location-local coordinate and
call the usage's `tryExpand`.  Returns the result together with the index of
the matched location, or `none` when the loop falls through to
`KJ_FAIL_ASSERT("Tried to expand field that was never allocated.")`. -/
def groupExpandSweep (parentExpand : Nat → Nat → Nat → Bool)
    (locs : List DataLocation) (oldLgSize oldOffset expansionFactor : Nat) :
    Nat → List DataLocationUsage →
    Option (Bool × DataLocation × DataLocationUsage × Nat)
  | _, [] => none
  | i, u :: rest =>
    let loc := locs.getD i ⟨0, 0⟩
    if oldLgSize ≤ loc.lgSize ∧ oldOffset >>> (loc.lgSize - oldLgSize) = loc.offset then
      let localOldOffset := oldOffset - (loc.offset <<< (loc.lgSize - oldLgSize))
      let r := usageTryExpand parentExpand loc u oldLgSize localOldOffset expansionFactor
      some (r.1, r.2.1, r.2.2, i)
    else
      groupExpandSweep parentExpand locs oldLgSize oldOffset expansionFactor (i + 1) rest

/-- `Group::tryExpandData(oldLgSize, oldOffset, expansionFactor)`
(node-translator.c++ lines 492-516).  NOTE: in the source, the pre-check
`if (oldLgSize + expansionFactor > 6 || (oldOffset & ((1 << expansionFactor)
- 1)) != 0)` has an EMPTY body -- the condition is computed and discarded (no
`return false`), so execution always continues into the location sweep.  The
`_deadPrecheck` binding below records that dead condition.  The result is
`none` when the sweep reaches the fatal assertion, otherwise `some` of the
C++ Boolean result and the updated location/usage vectors. -/
def groupTryExpandData (parentExpand : Nat → Nat → Nat → Bool)
    (locs : List DataLocation) (usages : List DataLocationUsage)
    (oldLgSize oldOffset expansionFactor : Nat) :
    Option (Bool × List DataLocation × List DataLocationUsage) :=
  let _deadPrecheck : Bool :=
    decide (oldLgSize + expansionFactor > 6) ||
      decide (oldOffset % 2 ^ expansionFactor ≠ 0)
  match groupExpandSweep parentExpand locs oldLgSize oldOffset expansionFactor 0 usages with
  | some r => some (r.1, locs.set r.2.2.2 r.2.1, usages.set r.2.2.2 r.2.2.1)
  | none => none

/-- `Union` (node-translator.c++ lines 213-268), with the parent scope fixed
to the struct's `Top` (the allocations the claims concern go through
`parent.addData`). -/
structure UnionState where
  groupCount : Nat
  discriminantOffset : Option Nat
  dataLocations : List DataLocation
  pointerLocations : List Nat
  deriving DecidableEq

/-- `Union::addNewDataLocation(lgSize)`: allocate a slot from the parent and
record it. -/
def UnionState.addNewDataLocation (u : UnionState) (t : Top) (lgSize : Nat) :
    Nat × UnionState × Top :=
  let r := t.addData lgSize
  (r.1, { u with dataLocations := u.dataLocations ++ [⟨lgSize, r.1⟩] }, r.2)

/-- `Union::addNewPointerLocation()`: take a pointer index from the parent and
record it. -/
def UnionState.addNewPointerLocation (u : UnionState) (t : Top) :
    Nat × UnionState × Top :=
  let r := t.addPointer
  (r.1, { u with pointerLocations := u.pointerLocations ++ [r.1] }, r.2)

/-- `Union::addDiscriminant()` (node-translator.c++ lines 260-267): allocate
the 16-bit discriminant (`parent.addData(4)`, since `2^4 = 16` bits) if not
already present; the Boolean reports whether this call allocated it. -/
def UnionState.addDiscriminant (u : UnionState) (t : Top) : Bool × UnionState × Top :=
  match u.discriminantOffset with
  | none =>
    let r := t.addData 4
    (true, { u with discriminantOffset := some r.1 }, r.2)
  | some _ => (false, u, t)

/-- `Union::newGroupAddingFirstMember()` (node-translator.c++ lines 254-258):
count the new group; when the count reaches two, allocate the discriminant. -/
def UnionState.newGroupAddingFirstMember (u : UnionState) (t : Top) :
    UnionState × Top :=
  let u1 := { u with groupCount := u.groupCount + 1 }
  if u1.groupCount = 2 then
    let r := u1.addDiscriminant t
    (r.2.1, r.2.2)
  else
    (u1, t)

/-- The events of one struct translation that touch a given union's
discriminant state:
* `newGroup` -- a group of the union gains its first member (`Group::addVoid`
  calls `Union::newGroupAddingFirstMember`, lines 433-438);
* `initVariant` -- `MemberInfo::getSchema` runs for an in-union member,
  assigning it the next discriminant value and bumping the parent's
  `unionDiscriminantCount` (lines 1016-1030);
* `explicitDiscriminant` -- the ordinal pass reaches a union declaration with
  an explicit ordinal and calls `member.unionScope->addDiscriminant()`
  (lines 871-877). -/
inductive UnionEvent where
  | newGroup
  | initVariant
  | explicitDiscriminant
  deriving DecidableEq

/-- The state those events act on: the union's layout state, the parent `Top`,
and the `MemberInfo` fields `unionDiscriminantCount` and the discriminant
values handed out so far. -/
structure UnionTranslation where
  union : UnionState
  top : Top
  unionDiscriminantCount : Nat
  discriminantValues : List Nat
  deriving DecidableEq

/-- The state at the start of a struct translation: fresh union over a fresh
`Top`, no variants initialized. -/
def UnionTranslation.initial : UnionTranslation :=
  { union :=
      { groupCount := 0, discriminantOffset := none,
        dataLocations := [], pointerLocations := [] },
    top := Top.initial,
    unionDiscriminantCount := 0,
    discriminantValues := [] }

/-- One translation event (see `UnionEvent`). -/
def unionStep (s : UnionTranslation) : UnionEvent → UnionTranslation
  | .newGroup =>
    let r := s.union.newGroupAddingFirstMember s.top
    { s with union := r.1, top := r.2 }
  | .initVariant =>
    { s with
      unionDiscriminantCount := s.unionDiscriminantCount + 1,
      discriminantValues := s.discriminantValues ++ [s.unionDiscriminantCount] }
  | .explicitDiscriminant =>
    let r := s.union.addDiscriminant s.top
    { s with union := r.2.1, top := r.2.2 }

/-- A sequence of translation events. -/
def unionRun (s : UnionTranslation) (events : List UnionEvent) : UnionTranslation :=
  events.foldl unionStep s

/-- The discriminant fields `MemberInfo::finishGroup` writes into the emitted
struct body (node-translator.c++ lines 1049-1055). -/
structure DiscriminantInfo where
  discriminantCount : Nat
  discriminantOffset : Nat
  deriving DecidableEq

/-- `MemberInfo::finishGroup` for a scope owning a union: call
`addDiscriminant` (in case it has not happened already), then copy
`unionDiscriminantCount` and the discriminant offset into the struct body.
`Option.getD 0` stands for `KJ_ASSERT_NONNULL`, which never takes the default
because `addDiscriminant` has just ensured the offset exists. -/
def finishGroup (s : UnionTranslation) : DiscriminantInfo × UnionTranslation :=
  let r := s.union.addDiscriminant s.top
  let s1 := { s with union := r.2.1, top := r.2.2 }
  ({ discriminantCount := s1.unionDiscriminantCount,
     discriminantOffset := s1.union.discriminantOffset.getD 0 }, s1)

/-- `schema2::ElementSize` as written by the struct translator. -/
inductive ElementSize where
  | empty
  | bit
  | byte
  | twoBytes
  | fourBytes
  | eightBytes
  | pointer
  | inlineComposite
  deriving DecidableEq

/-- The preferred-list-encoding computation at the end of
`StructTranslator::translate` (node-translator.c++ lines 918-941): start from
`INLINE_COMPOSITE` and refine by pointer count, data-word count and
`getFirstWordUsed`.  `none` models the `KJ_FAIL_ASSERT` default branch of the
switch (unreachable, since `getFirstWordUsed` is at most 6). -/
def preferredListEncoding (dataWordCount pointerCount : Nat) (holes : List Nat) :
    Option ElementSize :=
  if pointerCount = 0 then
    if dataWordCount = 0 then
      some ElementSize.empty
    else if dataWordCount = 1 then
      match getFirstWordUsed holes with
      | 0 => some ElementSize.bit
      | 1 => some ElementSize.byte
      | 2 => some ElementSize.byte
      | 3 => some ElementSize.byte
      | 4 => some ElementSize.twoBytes
      | 5 => some ElementSize.fourBytes
      | 6 => some ElementSize.eightBytes
      | _ => none
    else
      some ElementSize.inlineComposite
  else if pointerCount = 1 ∧ dataWordCount = 0 then
    some ElementSize.pointer
  else
    some ElementSize.inlineComposite

/-- The three struct-body fields the translator fills in at the end
(`setDataSectionWordSize`, `setPointerSectionSize`,
`setPreferredListEncoding`). -/
structure StructSizeInfo where
  dataSectionWordSize : Nat
  pointerSectionSize : Nat
  preferredListEncoding : Option ElementSize
  deriving DecidableEq

/-- The loop over `translator.groups` (node-translator.c++ lines 943-948):
every generated group node receives the root struct's data-word count, pointer
count and encoding hint. -/
def inheritSizes (root : StructSizeInfo) (groups : List StructSizeInfo) :
    List StructSizeInfo :=
  groups.map fun _ =>
    { dataSectionWordSize := root.dataSectionWordSize,
      pointerSectionSize := root.pointerSectionSize,
      preferredListEncoding := root.preferredListEncoding }

/-- A `LocatedInteger` reader: the ordinal value plus its source location
(locations are abstracted to identifiers). -/
structure LocatedInteger where
  value : Nat
  loc : Nat
  deriving DecidableEq

/-- The diagnostics `DuplicateOrdinalDetector::check` can emit, each carrying
the location it is reported on. -/
inductive OrdinalError where
  | duplicateOrdinal (loc : Nat)
  | originallyUsedHere (loc : Nat) (value : Nat)
  | skippedOrdinal (loc : Nat) (expected : Nat)
  deriving DecidableEq

/-- `NodeTranslator::DuplicateOrdinalDetector` state (node-translator.c++
lines 748-751): the next expected ordinal (starting at 0) and the location of
the last exactly-matched ordinal, if not yet consumed by a duplicate report. -/
structure DuplicateOrdinalDetector where
  expectedOrdinal : Nat
  lastOrdinalLocation : Option LocatedInteger
  deriving DecidableEq

/-- `DuplicateOrdinalDetector::check(ordinal)` (node-translator.c++ lines
728-746), returning the new state and the list of diagnostics emitted by this
call, in emission order. -/
def DuplicateOrdinalDetector.check (d : DuplicateOrdinalDetector)
    (ordinal : LocatedInteger) : DuplicateOrdinalDetector × List OrdinalError :=
  if ordinal.value < d.expectedOrdinal then
    match d.lastOrdinalLocation with
    | some last =>
      ({ d with lastOrdinalLocation := none },
        [OrdinalError.duplicateOrdinal ordinal.loc,
         OrdinalError.originallyUsedHere last.loc last.value])
    | none =>
      (d, [OrdinalError.duplicateOrdinal ordinal.loc])
  else if ordinal.value > d.expectedOrdinal then
    ({ d with expectedOrdinal := ordinal.value + 1 },
      [OrdinalError.skippedOrdinal ordinal.loc d.expectedOrdinal])
  else
    ({ expectedOrdinal := d.expectedOrdinal + 1, lastOrdinalLocation := some ordinal },
      [])

/-- The fresh detector (`expectedOrdinal = 0`, no recorded location). -/
def DuplicateOrdinalDetector.initial : DuplicateOrdinalDetector :=
  { expectedOrdinal := 0, lastOrdinalLocation := none }

/-- The `NEGATIVE_INT` case of `NodeTranslator::compileValueInner`
(node-translator.c++ lines 1641-1649): `nValue` is the unsigned magnitude of
the literal; values above `(uint64_max >> 1) + 1` are reported as too big,
anything else is stored as the 64-bit signed value `-nValue`. -/
def compileValueInnerNegativeInt (nValue : Nat) : Except String Int :=
  if nValue > (2 ^ 64 - 1) / 2 + 1 then
    Except.error "Integer is too big to be negative."
  else
    Except.ok (-(nValue : Int))

/-- `schema2::Type::Which`: the tag of a schema type. -/
inductive SchemaTypeKind where
  | voidType
  | boolType
  | int8Type
  | int16Type
  | int32Type
  | int64Type
  | uint8Type
  | uint16Type
  | uint32Type
  | uint64Type
  | float32Type
  | float64Type
  | textType
  | dataType
  | listType
  | enumType
  | structType
  | interfaceType
  | objectType
  deriving DecidableEq

/-- The parts of a `ValueExpression` body that
`NodeTranslator::compileValue` reads (`getString`, `getPositiveInt`). -/
structure ValueExpressionBody where
  string : String
  positiveInt : Nat
  deriving DecidableEq

/-- The values `NodeTranslator::compileValue` can currently produce. -/
inductive CompiledValue where
  | text (s : String)
  | uint16 (n : Nat)
  deriving DecidableEq

/-- `NodeTranslator::compileValue(source, type, target, isBootstrap)`
(node-translator.c++ lines 1523-1539): only the `TEXT` and `UINT16` type
cases are handled; every other case hits
`KJ_FAIL_ASSERT("Need to compile value type:", ...)`, modelled as `none`. -/
def compileValue (type : SchemaTypeKind) (source : ValueExpressionBody) :
    Option CompiledValue :=
  match type with
  | SchemaTypeKind.textType => some (CompiledValue.text source.string)
  | SchemaTypeKind.uint16Type => some (CompiledValue.uint16 source.positiveInt)
  | _ => none

/-- Whether `NodeTranslator::compileBootstrapValue` (lines 1501-1521) defers a
value of the given type to `finish()` by pushing it onto the
unfinished-values queue (the `LIST`, `STRUCT`, `INTERFACE`, `OBJECT` cases). -/
def defersToFinish : SchemaTypeKind → Bool
  | SchemaTypeKind.listType => true
  | SchemaTypeKind.structType => true
  | SchemaTypeKind.interfaceType => true
  | SchemaTypeKind.objectType => true
  | _ => false

/-- The drain loop of `NodeTranslator::finish()` (lines 543-552): compile each
queued `(type, source)` record in order; `none` models the fatal assertion
raised by the first `compileValue` call that cannot handle its type. -/
def finishValues : List (SchemaTypeKind × ValueExpressionBody) →
    Option (List CompiledValue)
  | [] => some []
  | e :: rest =>
    match compileValue e.1 e.2 with
    | none => none
    | some v =>
      match finishValues rest with
      | none => none
      | some vs => some (v :: vs)

/-- The declaration kinds `NodeTranslator::compileNode` dispatches on
(node-translator.c++ lines 571-599). -/
inductive DeclKind where
  | fileDecl
  | constDecl
  | annotDecl
  | enumDecl
  | structDecl
  | interfaceDecl
  | otherDecl
  deriving DecidableEq

/-- The outcome of `compileNode`: either a node of the given kind was built,
or a fatal assertion fired. -/
inductive CompileNodeResult where
  | compiled (kind : DeclKind)
  | fatal (msg : String)
  deriving DecidableEq

/-- `NodeTranslator::compileInterface` (node-translator.c++ lines 1225-1229):
unconditionally `KJ_FAIL_ASSERT("TODO: compile interfaces")`. -/
def compileInterface : CompileNodeResult :=
  CompileNodeResult.fatal "TODO: compile interfaces"

/-- The dispatch of `NodeTranslator::compileNode` (lines 571-599).  The
file/const/annotation/enum/struct compilers do produce a node and are
abstracted as success markers here; the interface branch calls
`compileInterface`; any other kind hits `KJ_FAIL_REQUIRE("This Declaration is
not a node.")`. -/
def compileNode : DeclKind → CompileNodeResult
  | DeclKind.fileDecl => CompileNodeResult.compiled DeclKind.fileDecl
  | DeclKind.constDecl => CompileNodeResult.compiled DeclKind.constDecl
  | DeclKind.annotDecl => CompileNodeResult.compiled DeclKind.annotDecl
  | DeclKind.enumDecl => CompileNodeResult.compiled DeclKind.enumDecl
  | DeclKind.structDecl => CompileNodeResult.compiled DeclKind.structDecl
  | DeclKind.interfaceDecl => compileInterface
  | DeclKind.otherDecl => CompileNodeResult.fatal "This Declaration is not a node."

end Capnp

namespace Capnp

/-- Auxiliary: `getD` after `set` at the written index (in range). -/
theorem getD_set_self (l : List Nat) (i v : Nat) (h : i < l.length) :
    (l.set i v).getD i 0 = v := by
  induction l generalizing i with
  | nil => simp at h
  | cons a t ih =>
    cases i with
    | zero => simp
    | succ n =>
      simp only [List.set, List.getD_cons_succ]
      exact ih n (by simpa using h)

/-- Auxiliary: `getD` after `set` at another index. -/
theorem getD_set_ne (l : List Nat) (i j v : Nat) (h : i ≠ j) :
    (l.set i v).getD j 0 = l.getD j 0 := by
  induction l generalizing i j with
  | nil => simp [List.set]
  | cons a t ih =>
    cases i with
    | zero =>
      cases j with
      | zero => exact absurd rfl h
      | succ m => simp
    | succ n =>
      cases j with
      | zero => simp
      | succ m =>
        simp only [List.set, List.getD_cons_succ]
        exact ih n m (by omega)

/-- Auxiliary: membership in a list after `set`. -/
theorem mem_of_mem_set {l : List Nat} {i v x : Nat} (hx : x ∈ l.set i v) :
    x ∈ l ∨ x = v := by
  induction l generalizing i with
  | nil => simp [List.set] at hx
  | cons a t ih =>
    cases i with
    | zero =>
      rcases List.mem_cons.mp hx with h | h
      · exact Or.inr h
      · exact Or.inl (List.mem_cons_of_mem _ h)
    | succ n =>
      rcases List.mem_cons.mp hx with h | h
      · exact Or.inl (h ▸ List.mem_cons_self _ _)
      · rcases ih h with h1 | h1
        · exact Or.inl (List.mem_cons_of_mem _ h1)
        · exact Or.inr h1

/-- `List.set` preserves length (restated for rewriting convenience). -/
theorem length_set_eq (l : List Nat) (i v : Nat) : (l.set i v).length = l.length :=
  List.length_set l i v

/-- Unfolding `tryAllocate` once for `lgSize < 6` (links the fuel to the guard). -/
theorem tryAllocate_unfold (holes : List Nat) (lgSize : Nat) (h : lgSize < 6) :
    tryAllocate holes lgSize =
      (if holes.getD lgSize 0 ≠ 0 then
        some (holes.getD lgSize 0, holes.set lgSize 0)
      else
        match tryAllocate holes (lgSize + 1) with
        | some p => some (p.1 * 2, p.2.set lgSize (p.1 * 2 + 1))
        | none => none) := by
  have hfuel : 6 - lgSize = (6 - (lgSize + 1)) + 1 := by omega
  rw [tryAllocate, hfuel, tryAllocateAux, tryAllocate]

/-- `tryAllocate` returns `none` exactly when the request is a whole word or
larger, or no hole of any size at least the request exists. -/
theorem tryAllocate_none_iff (holes : List Nat) (lgSize : Nat) :
    tryAllocate holes lgSize = none ↔
      (6 ≤ lgSize ∨ ∀ i, lgSize ≤ i → i < 6 → holes.getD i 0 = 0) := by
  by_cases h6 : 6 ≤ lgSize
  · have : 6 - lgSize = 0 := by omega
    simp [tryAllocate, this, tryAllocateAux, h6]
  · push_neg at h6
    rw [tryAllocate_unfold holes lgSize h6]
    by_cases hz : holes.getD lgSize 0 = 0
    · have ih := tryAllocate_none_iff holes (lgSize + 1)
      rw [if_neg (by simpa using hz)]
      constructor
      · intro hnone
        right
        intro i hle hlt
        rcases Nat.eq_or_lt_of_le hle with rfl | hlt2
        · exact hz
        · match hrec : tryAllocate holes (lgSize + 1) with
          | some p => rw [hrec] at hnone; simp at hnone
          | none =>
            rcases ih.mp hrec with h | h
            · omega
            · exact h i hlt2 hlt
      · intro hcases
        have hall : ∀ i, lgSize ≤ i → i < 6 → holes.getD i 0 = 0 := by
          rcases hcases with h | h
          · omega
          · exact h
        have hrec : tryAllocate holes (lgSize + 1) = none := by
          apply ih.mpr
          right
          intro i hle hlt
          exact hall i (by omega) hlt
        rw [hrec]
    · rw [if_pos hz]
      constructor
      · intro h
        simp at h
      · intro hcases
        rcases hcases with h | h
        · omega
        · exact ((hz (h lgSize le_rfl h6)).elim : _)
termination_by 6 - lgSize
decreasing_by omega

/-- Auxiliary: an in-range `getD` is a member of the list. -/
theorem getD_mem_of_lt (l : List Nat) (i : Nat) (h : i < l.length) :
    l.getD i 0 ∈ l := by
  induction l generalizing i with
  | nil => simp at h
  | cons a t ih =>
    cases i with
    | zero => simp
    | succ n =>
      simp only [List.getD_cons_succ]
      exact List.mem_cons_of_mem _ (ih n (by simpa using h))

/-- A successful `tryAllocateAux` preserves the array length and introduces
only zeros and odd offsets. -/
theorem tryAllocateAux_some_sound (fuel : Nat) :
    ∀ (holes : List Nat) (lgSize : Nat) (p : Nat × List Nat),
      tryAllocateAux holes fuel lgSize = some p →
      p.2.length = holes.length ∧ ∀ x ∈ p.2, x ∈ holes ∨ x = 0 ∨ x % 2 = 1 := by
  induction fuel with
  | zero =>
    intro holes lgSize p h
    simp [tryAllocateAux] at h
  | succ n ih =>
    intro holes lgSize p h
    simp only [tryAllocateAux] at h
    split at h
    · cases h
      refine ⟨List.length_set _ _ _, ?_⟩
      intro x hx
      rcases mem_of_mem_set hx with h1 | h1
      · exact Or.inl h1
      · exact Or.inr (Or.inl h1)
    · match hrec : tryAllocateAux holes n (lgSize + 1) with
      | some q =>
        rw [hrec] at h
        cases h
        obtain ⟨hlen, hmem⟩ := ih holes (lgSize + 1) q hrec
        refine ⟨by rw [List.length_set]; exact hlen, ?_⟩
        intro x hx
        rcases mem_of_mem_set hx with h1 | h1
        · exact hmem x h1
        · exact Or.inr (Or.inr (by omega))
      | none =>
        rw [hrec] at h
        cases h

/-- The state after any `tryAllocate` call keeps the length and introduces
only zeros and odd offsets. -/
theorem tryAllocateState_sound (holes : List Nat) (lgSize : Nat) :
    (tryAllocateState holes lgSize).length = holes.length ∧
      ∀ x ∈ tryAllocateState holes lgSize, x ∈ holes ∨ x = 0 ∨ x % 2 = 1 := by
  unfold tryAllocateState tryAllocate
  split
  · rename_i p h
    exact tryAllocateAux_some_sound _ holes lgSize p h
  · exact ⟨rfl, fun x hx => Or.inl hx⟩

/-- Under its `KJ_DREQUIRE` contract, `addHolesAtEndAux` preserves the length
and introduces only odd offsets. -/
theorem addHolesAtEndAux_sound (fuel : Nat) :
    ∀ (holes : List Nat) (lgSize offset : Nat),
      addHolesAtEndOkAux fuel holes lgSize offset = true →
      (addHolesAtEndAux fuel holes lgSize offset).length = holes.length ∧
      ∀ x ∈ addHolesAtEndAux fuel holes lgSize offset, x ∈ holes ∨ x % 2 = 1 := by
  induction fuel with
  | zero =>
    intro holes lgSize offset _
    exact ⟨rfl, fun x hx => Or.inl hx⟩
  | succ n ih =>
    intro holes lgSize offset hok
    simp only [addHolesAtEndOkAux, Bool.and_eq_true, beq_iff_eq] at hok
    obtain ⟨⟨hfree, hodd⟩, hrec⟩ := hok
    simp only [addHolesAtEndAux]
    obtain ⟨hlen, hmem⟩ := ih (holes.set lgSize offset) (lgSize + 1) ((offset + 1) / 2) hrec
    refine ⟨by rw [hlen, List.length_set], ?_⟩
    intro x hx
    rcases hmem x hx with h1 | h1
    · rcases mem_of_mem_set h1 with h2 | h2
      · exact Or.inl h2
      · exact Or.inr (h2 ▸ hodd)
    · exact Or.inr h1

/-- `tryExpand` preserves the length and only ever writes zeros. -/
theorem tryExpand_snd_sound (holes : List Nat) (oldLgSize oldOffset expansionFactor : Nat) :
    (tryExpand holes oldLgSize oldOffset expansionFactor).2.length = holes.length ∧
    ∀ x ∈ (tryExpand holes oldLgSize oldOffset expansionFactor).2, x ∈ holes ∨ x = 0 := by
  induction expansionFactor generalizing oldLgSize oldOffset with
  | zero => exact ⟨rfl, fun x hx => Or.inl hx⟩
  | succ n ih =>
    simp only [tryExpand]
    split
    · exact ⟨rfl, fun x hx => Or.inl hx⟩
    · obtain ⟨hlen, hmem⟩ := ih (oldLgSize + 1) (oldOffset / 2)
      rcases hr : tryExpand holes (oldLgSize + 1) (oldOffset / 2) n with ⟨b, h1⟩
      rw [hr] at hlen hmem
      cases b
      · exact ⟨hlen, hmem⟩
      · refine ⟨by simpa [List.length_set] using hlen, ?_⟩
        intro x hx
        rcases mem_of_mem_set hx with h2 | h2
        · exact hmem x h2
        · exact Or.inr h2

/-- C1: For every lg_size, HoleSet.tryAllocate(lg_size) returns the recorded
offset (in units of 2^lg_size) of a hole of exactly that size and removes it
when one exists; when none exists it recursively allocates at the next size up
and, on success, returns twice the larger hole's offset while re-recording the
unused half as a new hole at lg_size (at the returned offset plus one); and it
returns none whenever lg_size >= 6 or no hole of any size >= lg_size exists. -/
theorem tryAllocate_spec (holes : List Nat) (lgSize : Nat) :
    (lgSize < 6 → holes.getD lgSize 0 ≠ 0 →
      tryAllocate holes lgSize = some (holes.getD lgSize 0, holes.set lgSize 0))
    ∧ (lgSize < 6 → holes.getD lgSize 0 = 0 →
      tryAllocate holes lgSize =
        (tryAllocate holes (lgSize + 1)).map
          (fun p => (p.1 * 2, p.2.set lgSize (p.1 * 2 + 1))))
    ∧ (6 ≤ lgSize → tryAllocate holes lgSize = none)
    ∧ (tryAllocate holes lgSize = none ↔
        (6 ≤ lgSize ∨ ∀ i, lgSize ≤ i → i < 6 → holes.getD i 0 = 0)) := by
  refine ⟨?_, ?_, ?_, tryAllocate_none_iff holes lgSize⟩
  · intro h6 hne
    rw [tryAllocate_unfold holes lgSize h6, if_pos hne]
  · intro h6 hz
    rw [tryAllocate_unfold holes lgSize h6, if_neg (by simpa using hz)]
    cases tryAllocate holes (lgSize + 1) <;> simp
  · intro h6
    have h0 : 6 - lgSize = 0 := by omega
    simp [tryAllocate, h0, tryAllocateAux]

/-- Witness for C1: allocating size class 1 from a set holding a size-1 hole
at offset 3 returns that offset and clears the slot. -/
theorem tryAllocate_spec_witness :
    tryAllocate [0, 3, 0, 0, 0, 0] 1 = some (3, [0, 0, 0, 0, 0, 0]) := by
  have h := (tryAllocate_spec [0, 3, 0, 0, 0, 0] 1).1 (by norm_num) (by decide)
  exact h.trans (by decide)

/-- C2: For every HoleSet state reachable from the empty set by any sequence
of tryAllocate, addHolesAtEnd, and tryExpand operations (the latter under its
KJ_DREQUIRE contract), the array keeps its six one-slot-per-class entries (so
there is at most one hole per size class and, a zero entry meaning "no hole",
no recorded hole can have offset zero), and every recorded (nonzero) hole
offset is odd in its own units. -/
theorem holeSet_invariant (holes : List Nat) (hr : HoleSetReachable holes) :
    holes.length = 6 ∧
    (∀ x ∈ holes, x = 0 ∨ x % 2 = 1) ∧
    ∀ i < 6, holes.getD i 0 = 0 ∨ holes.getD i 0 % 2 = 1 := by
  have main : holes.length = 6 ∧ ∀ x ∈ holes, x = 0 ∨ x % 2 = 1 := by
    induction hr with
    | init =>
      refine ⟨by simp, ?_⟩
      intro x hx
      exact Or.inl (List.eq_of_mem_replicate hx)
    | alloc holes lgSize _ ih =>
      obtain ⟨hlen, hmem⟩ := tryAllocateState_sound holes lgSize
      refine ⟨hlen.trans ih.1, fun x hx => ?_⟩
      rcases hmem x hx with h | h
      · exact ih.2 x h
      · exact h
    | addHoles holes lgSize offset limitLgSize _ hlim hok ih =>
      obtain ⟨hlen, hmem⟩ :=
        addHolesAtEndAux_sound (limitLgSize - lgSize) holes lgSize offset hok
      refine ⟨hlen.trans ih.1, fun x hx => ?_⟩
      rcases hmem x hx with h | h
      · exact ih.2 x h
      · exact Or.inr h
    | expand holes oldLgSize oldOffset expansionFactor _ ih =>
      obtain ⟨hlen, hmem⟩ := tryExpand_snd_sound holes oldLgSize oldOffset expansionFactor
      refine ⟨hlen.trans ih.1, fun x hx => ?_⟩
      rcases hmem x hx with h | h
      · exact ih.2 x h
      · exact Or.inl h
  refine ⟨main.1, main.2, ?_⟩
  intro i hi
  exact main.2 _ (getD_mem_of_lt holes i (by rw [main.1]; exact hi))

/-- Witness for C2: the state after `Top::addData` extends the segment with a
fresh word and records the hole chain starting at offset 1 is reachable and
well-formed. -/
theorem holeSet_invariant_witness :
    (addHolesAtEnd (List.replicate 6 0) 0 1 6).length = 6 ∧
    (∀ x ∈ addHolesAtEnd (List.replicate 6 0) 0 1 6, x = 0 ∨ x % 2 = 1) ∧
    ∀ i < 6,
      (addHolesAtEnd (List.replicate 6 0) 0 1 6).getD i 0 = 0 ∨
      (addHolesAtEnd (List.replicate 6 0) 0 1 6).getD i 0 % 2 = 1 :=
  holeSet_invariant _
    (HoleSetReachable.addHoles _ 0 1 6 HoleSetReachable.init (by norm_num) (by decide))

/-- C3: HoleSet.tryExpand(lg, off, k) returns true if and only if the k
consecutive sibling holes at (lg, off+1), (lg+1, off/2+1), ... are all
present; on success exactly those sibling holes are consumed (zeroed) and no
non-adjacent hole is consumed, and on failure the hole set is left
unchanged. -/
theorem tryExpand_spec (holes : List Nat) (oldLgSize oldOffset expansionFactor : Nat)
    (hlen : holes.length = 6) (hrange : oldLgSize + expansionFactor ≤ 6) :
    ((tryExpand holes oldLgSize oldOffset expansionFactor).1 = true ↔
      ∀ j < expansionFactor, holes.getD (oldLgSize + j) 0 = oldOffset / 2 ^ j + 1)
    ∧ ((tryExpand holes oldLgSize oldOffset expansionFactor).1 = true →
        ∀ i, (tryExpand holes oldLgSize oldOffset expansionFactor).2.getD i 0 =
          if oldLgSize ≤ i ∧ i < oldLgSize + expansionFactor then 0
          else holes.getD i 0)
    ∧ ((tryExpand holes oldLgSize oldOffset expansionFactor).1 = false →
        (tryExpand holes oldLgSize oldOffset expansionFactor).2 = holes) := by
  induction expansionFactor generalizing oldLgSize oldOffset with
  | zero =>
    refine ⟨by simp [tryExpand], ?_, by simp [tryExpand]⟩
    intro _ i
    rw [if_neg (by omega)]
    rfl
  | succ n ih =>
    by_cases hc : holes.getD oldLgSize 0 = oldOffset + 1
    · have hrange1 : (oldLgSize + 1) + n ≤ 6 := by omega
      obtain ⟨ih1, ih2, ih3⟩ := ih (oldLgSize + 1) (oldOffset / 2) hrange1
      have hdiv : ∀ j, oldOffset / 2 / 2 ^ j = oldOffset / 2 ^ (j + 1) := by
        intro j
        rw [Nat.div_div_eq_div_mul, pow_succ, mul_comm]
      rcases hr : tryExpand holes (oldLgSize + 1) (oldOffset / 2) n with ⟨b, holes1⟩
      rw [hr] at ih1 ih2 ih3
      have hlen1 : holes1.length = 6 := by
        have h2 := (tryExpand_snd_sound holes (oldLgSize + 1) (oldOffset / 2) n).1
        rw [hr] at h2
        exact h2.trans hlen
      cases b
      · -- the recursion failed: the whole call fails and leaves the set unchanged
        have hstep : tryExpand holes oldLgSize oldOffset (n + 1) = (false, holes1) := by
          simp only [tryExpand]
          rw [if_neg (by simpa using hc), hr]
        simp only [Prod.fst, Prod.snd] at ih1 ih2 ih3
        refine ⟨?_, ?_, ?_⟩
        · rw [hstep]
          constructor
          · intro h
            exact absurd h (by simp)
          · intro hall
            exfalso
            have hmk : ∀ j < n, holes.getD (oldLgSize + 1 + j) 0 = oldOffset / 2 / 2 ^ j + 1 := by
              intro j hj
              have h2 := hall (j + 1) (by omega)
              rw [hdiv j]
              have harr : oldLgSize + 1 + j = oldLgSize + (j + 1) := by omega
              rw [harr]
              exact h2
            exact absurd (ih1.mpr hmk) (by simp)
        · intro h
          rw [hstep] at h
          exact absurd h (by simp)
        · intro _
          rw [hstep]
          exact ih3 trivial
      · -- the recursion succeeded: consume holes[oldLgSize] as well
        have hstep : tryExpand holes oldLgSize oldOffset (n + 1) =
            (true, holes1.set oldLgSize 0) := by
          simp only [tryExpand]
          rw [if_neg (by simpa using hc), hr]
        simp only [Prod.fst, Prod.snd] at ih1 ih2 ih3
        refine ⟨?_, ?_, ?_⟩
        · rw [hstep]
          constructor
          · intro _ j hj
            cases j with
            | zero => simpa using hc
            | succ j =>
              have h2 := ih1.mp trivial j (by omega)
              rw [hdiv j] at h2
              have harr : oldLgSize + (j + 1) = oldLgSize + 1 + j := by omega
              rw [harr]
              exact h2
          · intro _
            rfl
        · intro _ i
          rw [hstep]
          by_cases hi : i = oldLgSize
          · subst hi
            rw [getD_set_self _ _ _ (by rw [hlen1]; omega), if_pos (by omega)]
          · rw [getD_set_ne _ _ _ _ (fun h => hi h.symm), ih2 trivial i]
            by_cases hcase : oldLgSize + 1 ≤ i ∧ i < oldLgSize + 1 + n
            · rw [if_pos hcase, if_pos (by omega)]
            · rw [if_neg hcase, if_neg (by omega)]
        · intro h
          rw [hstep] at h
          exact absurd h (by simp)
    · have hstep : tryExpand holes oldLgSize oldOffset (n + 1) = (false, holes) := by
        simp only [tryExpand]
        rw [if_pos (by simpa using hc)]
      refine ⟨?_, ?_, ?_⟩
      · rw [hstep]
        constructor
        · intro h
          exact absurd h (by simp)
        · intro hall
          exfalso
          have h0 := hall 0 (by omega)
          simp only [pow_zero, Nat.div_one, Nat.add_zero] at h0
          exact absurd h0 hc
      · intro h
        rw [hstep] at h
        exact absurd h (by simp)
      · intro _
        rw [hstep]

/-- Witness for C3: a single size-8 sibling hole at offset 3 lets the region
(3, 2) expand by one factor, consuming exactly that hole. -/
theorem tryExpand_spec_witness :
    (tryExpand [0, 0, 0, 3, 0, 0] 3 2 1).1 = true ∧
    (tryExpand [0, 0, 0, 3, 0, 0] 3 2 1).2 = [0, 0, 0, 0, 0, 0] := by
  have h := tryExpand_spec [0, 0, 0, 3, 0, 0] 3 2 1 (by decide) (by norm_num)
  exact ⟨h.1.mpr (by decide), by decide⟩

/-- C4 (code bug): the claim and the source's own comment say
`Group::tryExpandData` returns false whenever `oldLgSize + expansionFactor >
6` or the offset is misaligned; but the pre-check `if` in the source has an
empty body (the `return false` is missing), so the call falls through to the
location sweep.  On a group that has used no data locations -- here with
`oldLgSize = 6, oldOffset = 0, expansionFactor = 1`, for which
`6 + 1 > 6` makes the pre-check condition true -- the sweep finds no
containing location and reaches `KJ_FAIL_ASSERT("Tried to expand field that
was never allocated.")` (modelled as `none`), a fatal crash instead of the
specified `false`. -/
theorem groupTryExpandData_missing_precheck :
    groupTryExpandData (fun _ _ _ => false) [] [] 6 0 1 = none ∧ 6 + 1 > 6 :=
  ⟨rfl, by norm_num⟩

/-- `addDiscriminant` always leaves the discriminant offset present. -/
theorem addDiscriminant_isSome (u : UnionState) (t : Top) :
    (u.addDiscriminant t).2.1.discriminantOffset.isSome = true := by
  cases hu : u.discriminantOffset <;>
    simp [UnionState.addDiscriminant, hu]

/-- When `addDiscriminant` reports an allocation, the offset was absent before
and the new offset and parent state come from `parent.addData(4)`. -/
theorem addDiscriminant_alloc (u : UnionState) (t : Top)
    (h : (u.addDiscriminant t).1 = true) :
    u.discriminantOffset = none
    ∧ (u.addDiscriminant t).2.1.discriminantOffset = some (t.addData 4).1
    ∧ (u.addDiscriminant t).2.2 = (t.addData 4).2 := by
  cases hu : u.discriminantOffset with
  | none => simp [UnionState.addDiscriminant, hu]
  | some v => simp [UnionState.addDiscriminant, hu] at h

/-- One `newGroupAddingFirstMember` call: the group count rises by one, and
the discriminant becomes present exactly if it already was or the count just
reached two. -/
theorem newGroup_step (u : UnionState) (t : Top) :
    (u.newGroupAddingFirstMember t).1.groupCount = u.groupCount + 1
    ∧ ((u.newGroupAddingFirstMember t).1.discriminantOffset.isSome = true ↔
        (u.discriminantOffset.isSome = true ∨ u.groupCount + 1 = 2)) := by
  unfold UnionState.newGroupAddingFirstMember
  by_cases h2 : u.groupCount + 1 = 2
  · cases hu : u.discriminantOffset <;>
      simp [UnionState.addDiscriminant, hu, h2]
  · simp [h2]

/-- In a run without explicit-ordinal discriminant events, starting from a
state where the discriminant is present exactly when the group count has
reached two, the final group count adds the number of new-group events, that
correspondence persists, and `unionDiscriminantCount` adds the number of
variant initializations. -/
theorem unionRun_invariant (events : List UnionEvent) :
    ∀ s : UnionTranslation,
      UnionEvent.explicitDiscriminant ∉ events →
      (s.union.discriminantOffset.isSome = true ↔ 2 ≤ s.union.groupCount) →
      (unionRun s events).union.groupCount
          = s.union.groupCount + events.count UnionEvent.newGroup
      ∧ ((unionRun s events).union.discriminantOffset.isSome = true ↔
          2 ≤ (unionRun s events).union.groupCount)
      ∧ (unionRun s events).unionDiscriminantCount
          = s.unionDiscriminantCount + events.count UnionEvent.initVariant := by
  induction events with
  | nil =>
    intro s _ h1
    refine ⟨by simp [unionRun], by simpa [unionRun] using h1, by simp [unionRun]⟩
  | cons e rest ih =>
    intro s hmem h1
    have hmem1 : UnionEvent.explicitDiscriminant ∉ rest :=
      fun h => hmem (List.mem_cons_of_mem _ h)
    have hrun : unionRun s (e :: rest) = unionRun (unionStep s e) rest := rfl
    cases e with
    | newGroup =>
      obtain ⟨hcnt, hiff⟩ := newGroup_step s.union s.top
      have hstep1 : (unionStep s UnionEvent.newGroup).union.groupCount
          = s.union.groupCount + 1 := hcnt
      have hstep2 : ((unionStep s UnionEvent.newGroup).union.discriminantOffset.isSome = true ↔
          2 ≤ (unionStep s UnionEvent.newGroup).union.groupCount) := by
        have hu : (unionStep s UnionEvent.newGroup).union
            = (s.union.newGroupAddingFirstMember s.top).1 := rfl
        rw [hstep1, hu, hiff, h1]
        omega
      have hstep3 : (unionStep s UnionEvent.newGroup).unionDiscriminantCount
          = s.unionDiscriminantCount := rfl
      obtain ⟨ha, hb, hc⟩ := ih (unionStep s UnionEvent.newGroup) hmem1 hstep2
      rw [hrun]
      refine ⟨?_, hb, ?_⟩
      · rw [ha, hstep1]
        simp [List.count_cons]
        omega
      · rw [hc, hstep3]
        simp [List.count_cons]
    | initVariant =>
      have hstep2 : ((unionStep s UnionEvent.initVariant).union.discriminantOffset.isSome = true ↔
          2 ≤ (unionStep s UnionEvent.initVariant).union.groupCount) := h1
      obtain ⟨ha, hb, hc⟩ := ih (unionStep s UnionEvent.initVariant) hmem1 hstep2
      rw [hrun]
      refine ⟨?_, hb, ?_⟩
      · rw [ha]
        simp [List.count_cons, unionStep]
      · rw [hc]
        simp [List.count_cons, unionStep]
        omega
    | explicitDiscriminant =>
      exact absurd (List.mem_cons_self _ _) hmem

/-- The discriminant values handed out by `MemberInfo::getSchema` are always
`0, 1, 2, ...` in initialization order. -/
theorem unionRun_values (events : List UnionEvent) :
    ∀ s : UnionTranslation,
      s.discriminantValues = List.range s.unionDiscriminantCount →
      (unionRun s events).discriminantValues
        = List.range (unionRun s events).unionDiscriminantCount := by
  induction events with
  | nil =>
    intro s h
    simpa [unionRun] using h
  | cons e rest ih =>
    intro s h
    have hrun : unionRun s (e :: rest) = unionRun (unionStep s e) rest := rfl
    rw [hrun]
    apply ih
    cases e with
    | newGroup => simpa [unionStep] using h
    | initVariant => simp [unionStep, h, List.range_succ]
    | explicitDiscriminant => simpa [unionStep] using h

/-- C5 counterexample: the claim says the discriminant offset is allocated
exactly when the union's group count reaches two, but the ordinal pass on a
union declaration with an explicit ordinal (node-translator.c++ line 872,
`member.unionScope->addDiscriminant()`) allocates it earlier: after that
single event from the initial state the offset is allocated (at offset 0,
via `parent.addData(4)`) while the group count is still zero.  This is
reachable: a union with ordinal @1, a sibling field @0 and member ordinals
@2, @3 processes the union's ordinal before any member creates a group. -/
theorem discriminant_allocated_before_second_group :
    (unionRun UnionTranslation.initial
        [UnionEvent.explicitDiscriminant]).union.discriminantOffset = some 0
    ∧ (unionRun UnionTranslation.initial
        [UnionEvent.explicitDiscriminant]).union.groupCount = 0 := by
  decide

/-- C5 (amended): Within one struct translation, the discriminant offset is
allocated at most once, always via the parent scope's addData with size class
4 (16 bits); in the absence of an explicit union ordinal it is allocated
exactly when the group count reaches two (an explicit union ordinal may
allocate it earlier); and after the finish-group pass every union (with any
number of members) has a discriminant offset, the emitted discriminant_count
equals the number of variants initialized, and the variants received the
discriminant values 0, 1, 2, ... in initialization order. -/
theorem union_discriminant_spec (events : List UnionEvent)
    (hnoexp : UnionEvent.explicitDiscriminant ∉ events) :
    ((unionRun UnionTranslation.initial events).union.groupCount
        = events.count UnionEvent.newGroup)
    ∧ ((unionRun UnionTranslation.initial events).union.discriminantOffset.isSome = true ↔
        2 ≤ events.count UnionEvent.newGroup)
    ∧ ((finishGroup (unionRun UnionTranslation.initial events)).2.union.discriminantOffset.isSome
        = true)
    ∧ ((finishGroup (unionRun UnionTranslation.initial events)).1.discriminantCount
        = events.count UnionEvent.initVariant)
    ∧ ((unionRun UnionTranslation.initial events).discriminantValues
        = List.range (events.count UnionEvent.initVariant))
    ∧ (∀ (u : UnionState) (t : Top), (u.addDiscriminant t).1 = true →
        u.discriminantOffset = none
        ∧ (u.addDiscriminant t).2.1.discriminantOffset = some (t.addData 4).1) := by
  have hinit : (UnionTranslation.initial.union.discriminantOffset.isSome = true ↔
      2 ≤ UnionTranslation.initial.union.groupCount) := by
    simp [UnionTranslation.initial]
  obtain ⟨ha, hb, hc⟩ := unionRun_invariant events UnionTranslation.initial hnoexp hinit
  have ha0 : (unionRun UnionTranslation.initial events).union.groupCount
      = events.count UnionEvent.newGroup := by
    simpa [UnionTranslation.initial] using ha
  have hc0 : (unionRun UnionTranslation.initial events).unionDiscriminantCount
      = events.count UnionEvent.initVariant := by
    simpa [UnionTranslation.initial] using hc
  refine ⟨ha0, by rw [← ha0]; exact hb, ?_, ?_, ?_, ?_⟩
  · exact addDiscriminant_isSome _ _
  · exact hc0
  · have hv := unionRun_values events UnionTranslation.initial (by simp [UnionTranslation.initial])
    rw [hv, hc0]
  · intro u t h
    obtain ⟨h1, h2, _⟩ := addDiscriminant_alloc u t h
    exact ⟨h1, h2⟩

/-- Witness for C5: two groups each gaining a first member, two variants
initialized -- the discriminant is present and the count is two. -/
theorem union_discriminant_spec_witness :
    (unionRun UnionTranslation.initial
        [UnionEvent.newGroup, UnionEvent.initVariant, UnionEvent.newGroup,
         UnionEvent.initVariant]).union.discriminantOffset.isSome = true := by
  have h := union_discriminant_spec
    [UnionEvent.newGroup, UnionEvent.initVariant, UnionEvent.newGroup, UnionEvent.initVariant]
    (by decide)
  exact h.2.1.mpr (by decide)

/-- C6: The emitted preferred_list_encoding follows the decision table: with
pointer_count = 0 it is empty for 0 data words; for 1 data word it is
determined by first_word_used (class 0 gives bit, classes 1..3 give byte,
class 4 gives two_bytes, class 5 gives four_bytes, class 6 gives eight_bytes);
with pointer_count = 1 and 0 data words it is pointer; in every other case it
is inline_composite; and every generated group node inherits the root struct's
data word count, pointer count, and encoding hint. -/
theorem preferred_encoding_spec (dataWordCount pointerCount : Nat) (holes : List Nat)
    (root : StructSizeInfo) (groups : List StructSizeInfo) :
    (pointerCount = 0 → dataWordCount = 0 →
      preferredListEncoding dataWordCount pointerCount holes = some ElementSize.empty)
    ∧ (pointerCount = 0 → dataWordCount = 1 → getFirstWordUsed holes = 0 →
      preferredListEncoding dataWordCount pointerCount holes = some ElementSize.bit)
    ∧ (pointerCount = 0 → dataWordCount = 1 →
        1 ≤ getFirstWordUsed holes → getFirstWordUsed holes ≤ 3 →
      preferredListEncoding dataWordCount pointerCount holes = some ElementSize.byte)
    ∧ (pointerCount = 0 → dataWordCount = 1 → getFirstWordUsed holes = 4 →
      preferredListEncoding dataWordCount pointerCount holes = some ElementSize.twoBytes)
    ∧ (pointerCount = 0 → dataWordCount = 1 → getFirstWordUsed holes = 5 →
      preferredListEncoding dataWordCount pointerCount holes = some ElementSize.fourBytes)
    ∧ (pointerCount = 0 → dataWordCount = 1 → getFirstWordUsed holes = 6 →
      preferredListEncoding dataWordCount pointerCount holes = some ElementSize.eightBytes)
    ∧ (pointerCount = 1 → dataWordCount = 0 →
      preferredListEncoding dataWordCount pointerCount holes = some ElementSize.pointer)
    ∧ (pointerCount = 0 → 2 ≤ dataWordCount →
      preferredListEncoding dataWordCount pointerCount holes
        = some ElementSize.inlineComposite)
    ∧ (1 ≤ pointerCount → ¬(pointerCount = 1 ∧ dataWordCount = 0) →
      preferredListEncoding dataWordCount pointerCount holes
        = some ElementSize.inlineComposite)
    ∧ (∀ g ∈ inheritSizes root groups,
        g.dataSectionWordSize = root.dataSectionWordSize
        ∧ g.pointerSectionSize = root.pointerSectionSize
        ∧ g.preferredListEncoding = root.preferredListEncoding) := by
  refine ⟨?_, ?_, ?_, ?_, ?_, ?_, ?_, ?_, ?_, ?_⟩
  · intro hp hd
    subst hp; subst hd
    simp [preferredListEncoding]
  · intro hp hd hf
    subst hp; subst hd
    simp [preferredListEncoding, hf]
  · intro hp hd h1 h3
    subst hp; subst hd
    have : getFirstWordUsed holes = 1 ∨ getFirstWordUsed holes = 2 ∨
        getFirstWordUsed holes = 3 := by omega
    rcases this with hf | hf | hf <;> simp [preferredListEncoding, hf]
  · intro hp hd hf
    subst hp; subst hd
    simp [preferredListEncoding, hf]
  · intro hp hd hf
    subst hp; subst hd
    simp [preferredListEncoding, hf]
  · intro hp hd hf
    subst hp; subst hd
    simp [preferredListEncoding, hf]
  · intro hp hd
    subst hp; subst hd
    simp [preferredListEncoding]
  · intro hp hd
    subst hp
    unfold preferredListEncoding
    rw [if_pos rfl, if_neg (by omega), if_neg (by omega)]
  · intro hp hnd
    unfold preferredListEncoding
    rw [if_neg (by omega), if_neg hnd]
  · intro g hg
    simp only [inheritSizes, List.mem_map] at hg
    obtain ⟨a, _, rfl⟩ := hg
    exact ⟨rfl, rfl, rfl⟩

/-- Witness for C6: one data word with the upper 48 bits free gives two_bytes;
a single pointer with no data gives pointer. -/
theorem preferred_encoding_spec_witness :
    preferredListEncoding 1 0 [0, 0, 0, 0, 1, 1] = some ElementSize.twoBytes
    ∧ preferredListEncoding 0 1 [0, 0, 0, 0, 0, 0] = some ElementSize.pointer := by
  constructor
  · exact (preferred_encoding_spec 1 0 [0, 0, 0, 0, 1, 1]
      ⟨0, 0, none⟩ []).2.2.2.1 rfl rfl (by decide)
  · exact (preferred_encoding_spec 0 1 [0, 0, 0, 0, 0, 0]
      ⟨0, 0, none⟩ []).2.2.2.2.2.2.1 rfl rfl

/-- C7 counterexample: checking the ascending ordinal sequence 0, 0, 0, the
third check emits a single error, not the two the claim requires for every
duplicate -- the prior-occurrence marker was consumed when the second
occurrence was reported and is only refreshed by an exact match. -/
theorem dup_ordinal_third_report_single :
    ((((DuplicateOrdinalDetector.initial.check ⟨0, 0⟩).1.check ⟨0, 1⟩).1.check ⟨0, 2⟩).2
        = [OrdinalError.duplicateOrdinal 2])
    ∧ ((((DuplicateOrdinalDetector.initial.check ⟨0, 0⟩).1.check ⟨0, 1⟩).1.check ⟨0, 2⟩).2).length
        ≠ 2 := by
  decide

/-- C7 (amended): For every sequence of ordinals checked in ascending order,
the detector requires a dense sequence from 0: an ordinal below the expected
counter (a duplicate) produces an error at the current occurrence, plus a
second error at the recorded prior occurrence when one is recorded -- the
record is consumed by the report and is set only by an exactly-matching
ordinal, so e.g. the third of three equal ordinals yields a single error; the
expected counter is unchanged by a duplicate.  An ordinal above the expected
counter (a gap) produces exactly one error and the expected counter resumes
from the seen value plus one. -/
theorem dup_ordinal_check_spec (d : DuplicateOrdinalDetector) (o : LocatedInteger) :
    (o.value < d.expectedOrdinal →
      (d.check o).1.expectedOrdinal = d.expectedOrdinal
      ∧ (d.check o).1.lastOrdinalLocation = none
      ∧ (∀ last, d.lastOrdinalLocation = some last →
          (d.check o).2 = [OrdinalError.duplicateOrdinal o.loc,
            OrdinalError.originallyUsedHere last.loc last.value])
      ∧ (d.lastOrdinalLocation = none →
          (d.check o).2 = [OrdinalError.duplicateOrdinal o.loc]))
    ∧ (d.expectedOrdinal < o.value →
      (d.check o).2 = [OrdinalError.skippedOrdinal o.loc d.expectedOrdinal]
      ∧ (d.check o).1.expectedOrdinal = o.value + 1
      ∧ (d.check o).1.lastOrdinalLocation = d.lastOrdinalLocation)
    ∧ (o.value = d.expectedOrdinal →
      (d.check o).2 = []
      ∧ (d.check o).1.expectedOrdinal = d.expectedOrdinal + 1
      ∧ (d.check o).1.lastOrdinalLocation = some o) := by
  refine ⟨?_, ?_, ?_⟩
  · intro hlt
    cases hl : d.lastOrdinalLocation with
    | some last =>
      refine ⟨?_, ?_, ?_, ?_⟩ <;>
        simp [DuplicateOrdinalDetector.check, hlt, hl]
    | none =>
      refine ⟨?_, ?_, ?_, ?_⟩ <;>
        simp [DuplicateOrdinalDetector.check, hlt, hl]
  · intro hgt
    have h1 : ¬ o.value < d.expectedOrdinal := by omega
    refine ⟨?_, ?_, ?_⟩ <;>
      simp [DuplicateOrdinalDetector.check, h1, hgt]
  · intro heq
    have h1 : ¬ o.value < d.expectedOrdinal := by omega
    have h2 : ¬ o.value > d.expectedOrdinal := by omega
    refine ⟨?_, ?_, ?_⟩ <;>
      simp [DuplicateOrdinalDetector.check, h1, h2]

/-- Witness for C7: a gap (5 when 0 was expected) yields exactly the skipped
diagnostic and the counter resumes at 6. -/
theorem dup_ordinal_check_spec_witness :
    (DuplicateOrdinalDetector.initial.check ⟨5, 7⟩).2
        = [OrdinalError.skippedOrdinal 7 0]
    ∧ (DuplicateOrdinalDetector.initial.check ⟨5, 7⟩).1.expectedOrdinal = 6 := by
  have h := (dup_ordinal_check_spec DuplicateOrdinalDetector.initial ⟨5, 7⟩).2.1
    (by decide)
  exact ⟨h.1, h.2.1⟩

/-- C8: Compiling a negative integer value expression reports the diagnostic
"Integer is too big to be negative." if and only if the literal's magnitude
exceeds 2^63 (so -9223372036854775809 is rejected); otherwise the target slot
is set to the exact (64-bit-representable) signed negative value and no error
is reported. -/
theorem negative_int_spec (nValue : Nat) :
    ((compileValueInnerNegativeInt nValue
        = Except.error "Integer is too big to be negative.") ↔ 2 ^ 63 < nValue)
    ∧ (nValue ≤ 2 ^ 63 →
        compileValueInnerNegativeInt nValue = Except.ok (-(nValue : Int))
        ∧ -(2 ^ 63 : Int) ≤ -(nValue : Int) ∧ -(nValue : Int) ≤ 0) := by
  have hth : (2 ^ 64 - 1) / 2 + 1 = 2 ^ 63 := by norm_num
  unfold compileValueInnerNegativeInt
  rw [hth]
  by_cases h : 2 ^ 63 < nValue
  · rw [if_pos h]
    exact ⟨⟨fun _ => h, fun _ => rfl⟩, fun hle => absurd h (not_lt.mpr hle)⟩
  · rw [if_neg h]
    refine ⟨⟨fun heq => absurd heq (by simp), fun hlt => absurd hlt h⟩, fun hle => ?_⟩
    refine ⟨rfl, ?_, ?_⟩
    · have h1 : (nValue : Int) ≤ 2 ^ 63 := by exact_mod_cast hle
      exact neg_le_neg h1
    · have h0 : (0 : Int) ≤ (nValue : Int) := by exact_mod_cast Nat.zero_le nValue
      exact neg_nonpos.mpr h0

/-- Witness for C8: the magnitude 9223372036854775809 = 2^63 + 1 is rejected,
while 2^63 itself compiles to the most negative 64-bit value. -/
theorem negative_int_spec_witness :
    compileValueInnerNegativeInt 9223372036854775809
        = Except.error "Integer is too big to be negative."
    ∧ compileValueInnerNegativeInt 9223372036854775808
        = Except.ok (-9223372036854775808 : Int) := by
  constructor
  · exact (negative_int_spec 9223372036854775809).1.mpr (by norm_num)
  · have h := ((negative_int_spec 9223372036854775808).2 (by norm_num)).1
    exact h.trans (by norm_num)

/-- C9: compileValue (invoked at bootstrap for primitives and by finish() for
every deferred value) handles only the text and uint16 type cases; for any
other target type -- in particular every deferred composite (list, struct,
interface, anyPointer) record drained by finish() -- it triggers a fatal
assertion instead of producing a value, so finish() aborts whenever the
unfinished-values queue is non-empty. -/
theorem compileValue_spec (type : SchemaTypeKind) (source : ValueExpressionBody)
    (queue : List (SchemaTypeKind × ValueExpressionBody)) :
    (compileValue type source = none ↔
      (type ≠ SchemaTypeKind.textType ∧ type ≠ SchemaTypeKind.uint16Type))
    ∧ (defersToFinish type = true → compileValue type source = none)
    ∧ ((∀ e ∈ queue, defersToFinish e.1 = true) → queue ≠ [] →
        finishValues queue = none) := by
  refine ⟨?_, ?_, ?_⟩
  · cases type <;> simp [compileValue]
  · intro h
    cases type <;> simp_all [defersToFinish, compileValue]
  · intro hall hne
    match queue with
    | [] => exact absurd rfl hne
    | e :: rest =>
      have hd := hall e (List.mem_cons_self _ _)
      have he : compileValue e.1 e.2 = none := by
        rcases e with ⟨t, src⟩
        cases t <;> simp_all [defersToFinish, compileValue]
      simp [finishValues, he]

/-- Witness for C9: a one-element queue holding a deferred list value makes
finish() abort. -/
theorem compileValue_spec_witness :
    finishValues [(SchemaTypeKind.listType, ⟨"", 0⟩)] = none :=
  (compileValue_spec SchemaTypeKind.listType ⟨"", 0⟩
    [(SchemaTypeKind.listType, ⟨"", 0⟩)]).2.2 (by decide) (by decide)

/-- C10: For every interface declaration, compileNode dispatches to
compileInterface, which unconditionally triggers the fatal assertion
"TODO: compile interfaces"; no interface node is ever successfully
translated. -/
theorem compileNode_interface_fatal :
    compileNode DeclKind.interfaceDecl = compileInterface
    ∧ compileInterface = CompileNodeResult.fatal "TODO: compile interfaces"
    ∧ ∀ k : DeclKind, compileNode DeclKind.interfaceDecl ≠ CompileNodeResult.compiled k := by
  refine ⟨rfl, rfl, ?_⟩
  intro k
  simp [compileNode, compileInterface]

end Capnp
